import Mathlib

/-!
Verification development for the coarse-map-turtlebot core:
a shallow embedding (in exact rational arithmetic) of the pure-pursuit
path tracker (`scripts/pure_pursuit.py`), the LiDAR occupancy ray caster
(`locobot_interface.py`), the panorama corner repair (`runner_node.py`),
the command clamp stage (`motion_planning_node.py`), and the sensor
buffer pop protocol (`runner_node.py`), together with theorems about
the properties the specification states for them.

Modelling conventions:
* Python floats are idealized as rationals.
* Fallible Python operations (division by zero, `math.sqrt` of a
  negative) are embedded as `Except String`.
* Transcendental operations (`math.atan2`, `math.remainder`, `math.pi`,
  `math.sqrt` on non-squares, `sin`/`cos` of beam angles) are supplied
  as oracle parameters, since no verified claim depends on their values
  beyond simple sign facts stated as explicit hypotheses.
-/

namespace Turtlebot

/-- Python `int(x)` conversion of a float: truncation toward zero. -/
def pyInt (x : ℚ) : ℤ := if 0 ≤ x then ⌊x⌋ else ⌈x⌉

/-- Python division `a / b`, which raises `ZeroDivisionError` when `b = 0`. -/
def pyDiv (a b : ℚ) : Except String ℚ :=
  if b = 0 then .error "ZeroDivisionError" else .ok (a / b)

/-! ## PathTracker: `scripts/pure_pursuit.py` -/

/-- A metric waypoint `(x, y)`. -/
abbrev Pt := ℚ × ℚ

/-- The vehicle pose `cur = (x, y, heading)`. -/
structure Pose where
  x : ℚ
  y : ℚ
  th : ℚ

/-- Mutable class state of `PurePursuit`. -/
structure PPState where
  path_meters : List Pt
  integ : ℚ
  err_prev : ℚ
  last_time : ℚ

/-- `PurePursuit.lookahead_dist_init = 0.2` meters. -/
def lookahead_dist_init : ℚ := 1 / 5

/-- `PurePursuit.lookahead_dist_max = 2` meters. -/
def lookahead_dist_max : ℚ := 2

/-- The per-waypoint test in `PurePursuit.pare_path`:
`r = ((cur[0]-p[0])**2 + (cur[1]-p[1])**2)**(1/2) < 0.15`, embedded
without the square root as the equivalent squared comparison. -/
def close_to (cur : Pose) (p : Pt) : Bool :=
  decide ((cur.x - p.1) ^ 2 + (cur.y - p.2) ^ 2 < (3 / 20 : ℚ) ^ 2)

/-- `PurePursuit.pare_path`: scan the path from the front; at the first
waypoint within 0.15 m of the pose, delete the prefix up to and
including it (`del path_meters[0:i+1]`); otherwise leave the path as is. -/
def pare_path (cur : Pose) (path : List Pt) : List Pt :=
  match path.findIdx? (close_to cur) with
  | some i => path.drop (i + 1)
  | none => path

/-- Quadratic coefficient `a = diff[0]**2 + diff[1]**2` for the segment
from `pPrev` to `pCur` in `choose_lookahead_pt`. -/
def segA (pPrev pCur : Pt) : ℚ :=
  (pCur.1 - pPrev.1) ^ 2 + (pCur.2 - pPrev.2) ^ 2

/-- Quadratic coefficient `b = 2*(v1[0]*diff[0] + v1[1]*diff[1])`. -/
def segB (cur : Pose) (pPrev pCur : Pt) : ℚ :=
  2 * ((pPrev.1 - cur.x) * (pCur.1 - pPrev.1) + (pPrev.2 - cur.y) * (pCur.2 - pPrev.2))

/-- Quadratic coefficient `c = v1[0]**2 + v1[1]**2 - lookahead_dist**2`. -/
def segC (cur : Pose) (L : ℚ) (pPrev : Pt) : ℚ :=
  (pPrev.1 - cur.x) ^ 2 + (pPrev.2 - cur.y) ^ 2 - L ^ 2

/-- The discriminant argument `b**2 - 4*a*c` passed to `sqrt`. -/
def segDisc (cur : Pose) (L : ℚ) (pPrev pCur : Pt) : ℚ :=
  segB cur pPrev pCur ^ 2 - 4 * segA pPrev pCur * segC cur L pPrev

/-- The first quadratic root `q[0] = (-b - discr)/(2*a)`. -/
def segQ0 (rsqrt : ℚ → ℚ) (cur : Pose) (L : ℚ) (pPrev pCur : Pt) : ℚ :=
  (-segB cur pPrev pCur - rsqrt (segDisc cur L pPrev pCur)) / (2 * segA pPrev pCur)

/-- The second quadratic root `q[1] = (-b + discr)/(2*a)`. -/
def segQ1 (rsqrt : ℚ → ℚ) (cur : Pose) (L : ℚ) (pPrev pCur : Pt) : ℚ :=
  (-segB cur pPrev pCur + rsqrt (segDisc cur L pPrev pCur)) / (2 * segA pPrev pCur)

/-- The intersection point at parameter `t` along the segment:
`first seg pt + t percent along the diff vector`. -/
def segPtAt (pPrev pCur : Pt) (t : ℚ) : Pt :=
  (pPrev.1 + t * (pCur.1 - pPrev.1), pPrev.2 + t * (pCur.2 - pPrev.2))

/-- One iteration of the segment loop in `PurePursuit.choose_lookahead_pt`:
solve the circle-segment quadratic for the segment `pPrev → pCur`.
A negative discriminant makes `math.sqrt` raise inside the `try`, which
the bare `except` catches (`continue`: no candidate from this segment).
Otherwise both roots are computed; each is a Python division by `2*a`,
which raises `ZeroDivisionError` exactly when `a = 0` (the raise is
outside the `try` and propagates).  The first of the two roots lying in
`[0, 1]`, with the lower root `q[0]` checked first, yields the
candidate point. -/
def segStep (rsqrt : ℚ → ℚ) (cur : Pose) (L : ℚ) (pPrev pCur : Pt) :
    Except String (Option Pt) :=
  if segDisc cur L pPrev pCur < 0 then .ok none
  else if 2 * segA pPrev pCur = 0 then .error "ZeroDivisionError"
  else if 0 ≤ segQ0 rsqrt cur L pPrev pCur ∧ segQ0 rsqrt cur L pPrev pCur ≤ 1 then
    .ok (some (segPtAt pPrev pCur (segQ0 rsqrt cur L pPrev pCur)))
  else if 0 ≤ segQ1 rsqrt cur L pPrev pCur ∧ segQ1 rsqrt cur L pPrev pCur ≤ 1 then
    .ok (some (segPtAt pPrev pCur (segQ1 rsqrt cur L pPrev pCur)))
  else .ok none

/-- The segment loop of `choose_lookahead_pt`: iterate over consecutive
waypoint pairs, overwriting the accumulated `lookahead_pt` whenever a
segment yields a candidate (the loop has no early exit). -/
def chooseAux (rsqrt : ℚ → ℚ) (cur : Pose) (L : ℚ) :
    Option Pt → Pt → List Pt → Except String (Option Pt)
  | acc, _, [] => .ok acc
  | acc, prev, p :: rest =>
    match segStep rsqrt cur L prev p with
    | .error e => .error e
    | .ok none => chooseAux rsqrt cur L acc p rest
    | .ok (some pt) => chooseAux rsqrt cur L (some pt) p rest

/-- `PurePursuit.choose_lookahead_pt`: with a single-point path return
that point directly; otherwise run the segment loop starting from
`lookahead_pt = None`. -/
def choose_lookahead_pt (rsqrt : ℚ → ℚ) (cur : Pose) (L : ℚ) (path : List Pt) :
    Except String (Option Pt) :=
  match path with
  | [p] => .ok (some p)
  | [] => .ok none
  | p :: rest => chooseAux rsqrt cur L none p rest

/-- The radius-growing `while` loop in `PurePursuit.compute_command`
(lines 35-39): search at the current radius; on failure multiply the
radius by 1.25 and retry while it does not exceed the maximum.  The
fuel argument only bounds the recursion; `fuel = 12` is enough for the
loop to terminate through its own guard (`0.2 * 1.25^11 > 2`). -/
def lookahead_search (rsqrt : ℚ → ℚ) (cur : Pose) (path : List Pt) :
    ℕ → ℚ → Except String (Option Pt)
  | 0, _ => .ok none
  | fuel + 1, dist =>
    if dist ≤ lookahead_dist_max then
      match choose_lookahead_pt rsqrt cur dist path with
      | .error e => .error e
      | .ok (some pt) => .ok (some pt)
      | .ok none => lookahead_search rsqrt cur path fuel (dist * (5 / 4))
    else .ok none

/-- Lines 33-43 of `compute_command`: the lookahead search followed by
the fallback `lookahead_pt = path_meters[0]` when no intersection was
found at any radius. -/
def select_lookahead (rsqrt : ℚ → ℚ) (cur : Pose) (path : List Pt) :
    Except String Pt :=
  match lookahead_search rsqrt cur path 12 lookahead_dist_init with
  | .error e => .error e
  | .ok (some pt) => .ok pt
  | .ok none => .ok path.headI

/-- Oracle values for the transcendental operations used by
`compute_command`: `math.atan2`, `x ↦ math.remainder(x, tau)`, and
`math.pi`. -/
structure TrigOracle where
  atan2 : ℚ → ℚ → ℚ
  remTau : ℚ → ℚ
  pi : ℚ

/-- `PurePursuit.compute_command`, with explicit state passing and the
current wall-clock time `now` as an argument.  Statement order follows
the source: pare the path; return `(0, 0)` on an empty path; select the
lookahead point; compute the heading error `beta`; `dt = now -
last_time` unless `last_time == 0` (then `dt = 0`); update `last_time`
and the integral; compute `P`, `I` and `D = 0.0*(beta - err_prev)/dt`
(a Python division, raising when `dt = 0`); and only then the command
and the `err_prev` update.  The state returned alongside an error
reflects the mutations already performed before the raise. -/
def compute_command (O : TrigOracle) (rsqrt : ℚ → ℚ) (s : PPState) (cur : Pose)
    (now : ℚ) : Except String (ℚ × ℚ) × PPState :=
  let path1 := pare_path cur s.path_meters
  if path1.length < 1 then
    (.ok (0, 0), PPState.mk path1 s.integ s.err_prev s.last_time)
  else
    match select_lookahead rsqrt cur path1 with
    | .error e => (.error e, PPState.mk path1 s.integ s.err_prev s.last_time)
    | .ok lookahead_pt =>
      let gb := O.atan2 (lookahead_pt.2 - cur.y) (lookahead_pt.1 - cur.x)
      let beta := O.remTau (gb - cur.th)
      let dt : ℚ := if s.last_time ≠ 0 then now - s.last_time else 0
      let integ' := s.integ + beta * dt
      let P := (1 / 2 : ℚ) * beta
      let I := (0 : ℚ) * integ'
      match pyDiv (0 * (beta - s.err_prev)) dt with
      | .error e => (.error e, PPState.mk path1 integ' s.err_prev now)
      | .ok D =>
        let ang := P + I + D
        let fwd := (1 / 50 : ℚ) * (1 - |beta / O.pi|) ^ 12 + 1 / 100
        (.ok (fwd, ang), PPState.mk path1 integ' beta now)

/-! ## Helper lemmas -/

theorem option_toList_getLast {α : Type _} (o : Option α) : o.toList.getLast? = o := by
  cases o <;> rfl

theorem segA_pos {p q : Pt} (h : p ≠ q) : 0 < segA p q := by
  have hne : (q.1 - p.1) ^ 2 + (q.2 - p.2) ^ 2 ≠ 0 := by
    intro h0
    have ha : (q.1 - p.1) ^ 2 = 0 := by
      nlinarith [sq_nonneg (q.1 - p.1), sq_nonneg (q.2 - p.2)]
    have hb : (q.2 - p.2) ^ 2 = 0 := by
      nlinarith [sq_nonneg (q.1 - p.1), sq_nonneg (q.2 - p.2)]
    have hx : q.1 - p.1 = 0 := (pow_eq_zero_iff (two_ne_zero)).mp ha
    have hy : q.2 - p.2 = 0 := (pow_eq_zero_iff (two_ne_zero)).mp hb
    exact h (Prod.ext_iff.mpr ⟨by linarith, by linarith⟩)
  have h2 : 0 ≤ segA p q := by
    unfold segA; positivity
  rcases lt_or_eq_of_le h2 with hlt | heq
  · exact hlt
  · exact absurd heq.symm (by unfold segA; exact hne)

theorem segStep_isOk (rsqrt : ℚ → ℚ) (cur : Pose) (L : ℚ) {p q : Pt} (h : p ≠ q) :
    ∃ v, segStep rsqrt cur L p q = .ok v := by
  have ha := segA_pos h
  unfold segStep
  by_cases h1 : segDisc cur L p q < 0
  · rw [if_pos h1]; exact ⟨none, rfl⟩
  · rw [if_neg h1, if_neg (by linarith : ¬(2 * segA p q = 0))]
    split_ifs <;> exact ⟨_, rfl⟩

theorem chain_zip_tail {α : Type _} {R : α → α → Prop} :
    ∀ {l : List α}, l.Chain' R → ∀ pq ∈ l.zip l.tail, R pq.1 pq.2 := by
  intro l
  induction l with
  | nil => intro _ pq hm; simp at hm
  | cons a t ih =>
    cases t with
    | nil => intro _ pq hm; simp at hm
    | cons b r =>
      intro hc pq hm
      rw [List.chain'_cons] at hc
      rcases List.mem_cons.mp (by simpa [List.zip_cons_cons] using hm) with h | h
      · rw [h]; exact hc.1
      · exact ih hc.2 pq h

/-- The candidate produced by one segment, as an `Option`: `none` both
when the segment raises and when it yields no valid root (used only in
contexts where no segment raises). -/
def segCand (rsqrt : ℚ → ℚ) (cur : Pose) (L : ℚ) (pq : Pt × Pt) : Option Pt :=
  (segStep rsqrt cur L pq.1 pq.2).toOption.join

/-- The segment loop accumulates: the final `lookahead_pt` is the last
candidate yielded by any segment, or the initial accumulator if none. -/
theorem chooseAux_eq (rsqrt : ℚ → ℚ) (cur : Pose) (L : ℚ) :
    ∀ (rest : List Pt) (prev : Pt) (acc : Option Pt),
      (∀ pq ∈ (prev :: rest).zip rest, ∃ v, segStep rsqrt cur L pq.1 pq.2 = .ok v) →
      chooseAux rsqrt cur L acc prev rest =
        .ok ((acc.toList ++ ((prev :: rest).zip rest).filterMap
          (segCand rsqrt cur L)).getLast?) := by
  intro rest
  induction rest with
  | nil =>
    intro prev acc _
    show chooseAux rsqrt cur L acc prev [] = _
    rw [chooseAux]
    simp [option_toList_getLast]
  | cons p r ih =>
    intro prev acc hok
    obtain ⟨v, hv⟩ := hok (prev, p) (by simp [List.zip_cons_cons])
    have hok' : ∀ pq ∈ (p :: r).zip r, ∃ v, segStep rsqrt cur L pq.1 pq.2 = .ok v := by
      intro pq hm
      exact hok pq (by simp only [List.zip_cons_cons, List.mem_cons]; exact Or.inr hm)
    have hcand : segCand rsqrt cur L (prev, p) = v := by
      unfold segCand; rw [hv]; cases v <;> rfl
    cases v with
    | none =>
      have hstep : chooseAux rsqrt cur L acc prev (p :: r) = chooseAux rsqrt cur L acc p r := by
        rw [chooseAux, hv]
      rw [hstep, ih p acc hok']
      simp only [List.zip_cons_cons, List.filterMap_cons, hcand]
    | some pt =>
      have hstep : chooseAux rsqrt cur L acc prev (p :: r) =
          chooseAux rsqrt cur L (some pt) p r := by
        rw [chooseAux, hv]
      rw [hstep, ih p (some pt) hok']
      simp only [List.zip_cons_cons, List.filterMap_cons, hcand, Option.toList_some,
        List.singleton_append]
      rw [List.getLast?_append]
      have hobs : (pt :: (((p :: r).zip r).filterMap (segCand rsqrt cur L))).getLast?.isSome :=
        List.getLast?_isSome.mpr (by simp)
      obtain ⟨y, hy⟩ := Option.isSome_iff_exists.mp hobs
      rw [hy]
      rfl

theorem findIdx_some_decomp {α : Type _} (p : α → Bool) :
    ∀ (l : List α) (i : ℕ), l.findIdx? p = some i →
      ∃ pre x suf, l = pre ++ x :: suf ∧ p x = true ∧ (∀ q ∈ pre, p q = false) ∧
        pre.length = i := by
  intro l
  induction l with
  | nil => intro i h; simp [List.findIdx?] at h
  | cons a t ih =>
    intro i h
    rw [List.findIdx?_cons] at h
    by_cases hpa : p a
    · rw [if_pos hpa] at h
      exact ⟨[], a, t, rfl, hpa, by simp, by simpa using (Option.some.inj h)⟩
    · rw [if_neg (by simpa using hpa), List.findIdx?_succ] at h
      obtain ⟨j, hj, rfl⟩ := Option.map_eq_some'.mp h
      obtain ⟨pre, x, suf, hdec, hx, hpre, hlen⟩ := ih j hj
      refine ⟨a :: pre, x, suf, by rw [hdec]; rfl, hx, ?_, by simp [hlen]⟩
      intro q hq
      rcases List.mem_cons.mp hq with rfl | hq
      · simpa using hpa
      · exact hpre q hq

/-- The `while` loop returns `.ok none` whenever the per-radius search
fails at every admissible radius: the loop guard keeps the radius
positive and at most the maximum. -/
theorem lookahead_search_none (rsqrt : ℚ → ℚ) (cur : Pose) (path : List Pt)
    (h : ∀ d : ℚ, 0 < d → d ≤ lookahead_dist_max →
      choose_lookahead_pt rsqrt cur d path = .ok none) :
    ∀ (fuel : ℕ) (d : ℚ), 0 < d → lookahead_search rsqrt cur path fuel d = .ok none := by
  intro fuel
  induction fuel with
  | zero => intro d _; rfl
  | succ n ih =>
    intro d hd0
    rw [lookahead_search]
    by_cases hd : d ≤ lookahead_dist_max
    · rw [if_pos hd, h d hd0 hd]
      exact ih (d * (5 / 4)) (by positivity)
    · rw [if_neg hd]

/-- The `while` loop exits with the found point as soon as the
per-radius search succeeds at an admissible radius. -/
theorem lookahead_search_found (rsqrt : ℚ → ℚ) (cur : Pose) (path : List Pt) (pt : Pt)
    (n : ℕ) (d : ℚ) (hd : d ≤ lookahead_dist_max)
    (hc : choose_lookahead_pt rsqrt cur d path = .ok (some pt)) :
    lookahead_search rsqrt cur path (n + 1) d = .ok (some pt) := by
  rw [lookahead_search, if_pos hd, hc]

/-- In the concrete fallback scenario (pose at the origin, path
`[(10, 3), (5, 3)]`), the per-radius search fails at every admissible
radius: the segment line `y = 3` stays 3 m from the pose, beyond even
the 2 m maximum radius, so the discriminant is negative and no
square-root oracle is ever consulted. -/
theorem scenario_choose_none (rsqrt : ℚ → ℚ) (d : ℚ) (hd0 : 0 < d)
    (hd : d ≤ lookahead_dist_max) :
    choose_lookahead_pt rsqrt (Pose.mk 0 0 0) d [((10 : ℚ), (3 : ℚ)), (5, 3)] = .ok none := by
  have hmax : d ≤ 2 := by simpa [lookahead_dist_max] using hd
  have hdisc : segDisc (Pose.mk 0 0 0) d ((10 : ℚ), (3 : ℚ)) ((5 : ℚ), (3 : ℚ)) < 0 := by
    simp only [segDisc, segA, segB, segC]
    nlinarith
  have hseg : segStep rsqrt (Pose.mk 0 0 0) d ((10 : ℚ), (3 : ℚ)) ((5 : ℚ), (3 : ℚ)) =
      .ok none := by
    unfold segStep
    rw [if_pos hdisc]
  show chooseAux rsqrt (Pose.mk 0 0 0) d none ((10 : ℚ), (3 : ℚ)) [((5 : ℚ), (3 : ℚ))] = .ok none
  rw [chooseAux, hseg]
  rfl

/-! ## Claim theorems for the PathTracker -/

/-- C1: on the very first call (`last_time = 0`) with a non-empty path,
`compute_command` does not complete normally: the derivative term
`0.0 * (beta - err_prev) / dt` is a division by `dt = 0` and raises
`ZeroDivisionError`, for every transcendental oracle and every
square-root oracle.  The claim that the first call completes normally
and returns the proportional-only command is contradicted by the code;
the spec statement (dt = 0 suppresses the derivative and integral
contributions on the first tick) is clearly the intent the code
misses. -/
theorem compute_command_first_call_raises (O : TrigOracle) (rsqrt : ℚ → ℚ) :
    (compute_command O rsqrt (PPState.mk [(1, 0)] 0 0 0) (Pose.mk 0 0 0) 1).1 =
      .error "ZeroDivisionError" := by
  have hclose : close_to (Pose.mk 0 0 0) ((1 : ℚ), (0 : ℚ)) = false := by
    simp only [close_to, decide_eq_false_iff_not]
    norm_num
  have hpare : pare_path (Pose.mk 0 0 0) [((1 : ℚ), (0 : ℚ))] = [((1 : ℚ), (0 : ℚ))] := by
    unfold pare_path
    rw [List.findIdx?_cons, hclose]
    rfl
  have hchoose : choose_lookahead_pt rsqrt (Pose.mk 0 0 0) lookahead_dist_init
      [((1 : ℚ), (0 : ℚ))] = .ok (some (1, 0)) := rfl
  have hsearch : lookahead_search rsqrt (Pose.mk 0 0 0) [((1 : ℚ), (0 : ℚ))] 12
      lookahead_dist_init = .ok (some (1, 0)) :=
    lookahead_search_found rsqrt (Pose.mk 0 0 0) [((1 : ℚ), (0 : ℚ))] (1, 0) 11
      lookahead_dist_init (by norm_num [lookahead_dist_init, lookahead_dist_max]) hchoose
  have hsel : select_lookahead rsqrt (Pose.mk 0 0 0) [((1 : ℚ), (0 : ℚ))] = .ok (1, 0) := by
    unfold select_lookahead
    rw [hsearch]
  unfold compute_command
  rw [hpare]
  rw [if_neg (by norm_num)]
  rw [hsel]
  simp [pyDiv]

/-- C3: `pare_path` returns a suffix of the input path, hence of length
less than or equal to the input length; if no waypoint is strictly
within 0.15 m of the pose it returns the path unchanged, and if some
waypoint is, it deletes exactly the prefix up to and including the
first such waypoint; a further call on the result still yields a suffix
of the original path, so pruned waypoints never reappear. -/
theorem pare_path_spec (cur : Pose) (path : List Pt) :
    (pare_path cur path).IsSuffix path ∧
    (pare_path cur path).length ≤ path.length ∧
    ((∀ p ∈ path, close_to cur p = false) → pare_path cur path = path) ∧
    ((∃ p ∈ path, close_to cur p = true) →
      ∃ pre p suf, path = pre ++ p :: suf ∧ close_to cur p = true ∧
        (∀ q ∈ pre, close_to cur q = false) ∧ pare_path cur path = suf) ∧
    ∀ cur₂ : Pose, (pare_path cur₂ (pare_path cur path)).IsSuffix path := by
  have hsuf : ∀ (c : Pose) (l : List Pt), (pare_path c l).IsSuffix l := by
    intro c l
    unfold pare_path
    cases hidx : l.findIdx? (close_to c) with
    | none => exact List.suffix_refl l
    | some i => exact List.drop_suffix (i + 1) l
  refine ⟨hsuf cur path, (hsuf cur path).length_le, ?_, ?_, ?_⟩
  · intro hall
    unfold pare_path
    rw [List.findIdx?_eq_none_iff.mpr hall]
  · intro hex
    cases hidx : path.findIdx? (close_to cur) with
    | none =>
      obtain ⟨p, hp, hcp⟩ := hex
      have := List.findIdx?_eq_none_iff.mp hidx p hp
      rw [hcp] at this
      exact absurd this (by simp)
    | some i =>
      obtain ⟨pre, x, suf, hdec, hx, hpre, hlen⟩ :=
        findIdx_some_decomp (close_to cur) path i hidx
      refine ⟨pre, x, suf, hdec, hx, hpre, ?_⟩
      unfold pare_path
      rw [hidx]
      show List.drop (i + 1) path = suf
      rw [hdec, ← hlen]
      have hdd : List.drop (pre.length + 1) (pre ++ x :: suf) =
          List.drop 1 (List.drop pre.length (pre ++ x :: suf)) := by
        rw [List.drop_drop]
      rw [hdd, List.drop_left]
      rfl
  · intro cur₂
    exact (hsuf cur₂ (pare_path cur path)).trans (hsuf cur path)

/-- C3 witness: the theorem applied at a concrete pose and a concrete
path whose single waypoint is farther than 0.15 m, so the path is
unchanged. -/
theorem pare_path_spec_witness :
    (pare_path (Pose.mk 0 0 0) [((1 : ℚ), (0 : ℚ))]).IsSuffix [((1 : ℚ), (0 : ℚ))] ∧
    pare_path (Pose.mk 0 0 0) [((1 : ℚ), (0 : ℚ))] = [((1 : ℚ), (0 : ℚ))] :=
  ⟨(pare_path_spec (Pose.mk 0 0 0) [((1 : ℚ), (0 : ℚ))]).1,
   (pare_path_spec (Pose.mk 0 0 0) [((1 : ℚ), (0 : ℚ))]).2.2.1 (by
      intro p hp
      rw [List.mem_singleton] at hp
      subst hp
      simp only [close_to, decide_eq_false_iff_not]
      norm_num)⟩

/-- C4 counterexample: for the pose `(0, 0, 0)` and the remaining path
`[(10, 3), (5, 3)]`, the lookahead search finds no circle-polyline
intersection at any radius (the path line stays 3 m away, beyond the
2 m maximum), and the fallback uses the FIRST remaining waypoint
`(10, 3)` although the other remaining waypoint `(5, 3)` is strictly
nearer to the pose.  This refutes the claim that the fallback is the
nearest remaining waypoint. -/
theorem lookahead_fallback_not_nearest :
    lookahead_search (fun _ => (0 : ℚ)) (Pose.mk 0 0 0) [((10 : ℚ), (3 : ℚ)), (5, 3)]
      12 lookahead_dist_init = .ok none ∧
    select_lookahead (fun _ => (0 : ℚ)) (Pose.mk 0 0 0) [((10 : ℚ), (3 : ℚ)), (5, 3)] =
      .ok (10, 3) ∧
    ((5 : ℚ) - 0) ^ 2 + ((3 : ℚ) - 0) ^ 2 < ((10 : ℚ) - 0) ^ 2 + ((3 : ℚ) - 0) ^ 2 := by
  have hsearch : lookahead_search (fun _ => (0 : ℚ)) (Pose.mk 0 0 0)
      [((10 : ℚ), (3 : ℚ)), (5, 3)] 12 lookahead_dist_init = .ok none :=
    lookahead_search_none (fun _ => (0 : ℚ)) (Pose.mk 0 0 0) [((10 : ℚ), (3 : ℚ)), (5, 3)]
      (fun d hd0 hd => scenario_choose_none (fun _ => (0 : ℚ)) d hd0 hd) 12
      lookahead_dist_init (by norm_num [lookahead_dist_init])
  refine ⟨hsearch, ?_, by norm_num⟩
  unfold select_lookahead
  rw [hsearch]
  rfl

/-- C4 (amended): if the lookahead search finds no circle-polyline
intersection at any radius from the initial radius grown by 1.25 per
attempt up to the maximum radius, the lookahead point used by
`compute_command` is deterministically the FIRST remaining waypoint
(`path_meters[0]`), not the nearest one. -/
theorem lookahead_fallback_first_waypoint (rsqrt : ℚ → ℚ) (cur : Pose) (path : List Pt)
    (h : lookahead_search rsqrt cur path 12 lookahead_dist_init = .ok none) :
    select_lookahead rsqrt cur path = .ok path.headI := by
  unfold select_lookahead
  rw [h]

/-- C4 witness: the amended theorem applied at the concrete fallback
scenario, with the search failure discharged by the scenario lemma. -/
theorem lookahead_fallback_first_waypoint_witness :
    select_lookahead (fun _ => (0 : ℚ)) (Pose.mk 0 0 0) [((10 : ℚ), (3 : ℚ)), (5, 3)] =
      .ok ([((10 : ℚ), (3 : ℚ)), (5, 3)].headI) :=
  lookahead_fallback_first_waypoint (fun _ => (0 : ℚ)) (Pose.mk 0 0 0)
    [((10 : ℚ), (3 : ℚ)), (5, 3)]
    (lookahead_search_none (fun _ => (0 : ℚ)) (Pose.mk 0 0 0) [((10 : ℚ), (3 : ℚ)), (5, 3)]
      (fun d hd0 hd => scenario_choose_none (fun _ => (0 : ℚ)) d hd0 hd) 12
      lookahead_dist_init (by norm_num [lookahead_dist_init]))

/-- C5: in the lookahead search at a fixed radius over a path with at
least two waypoints, pairwise distinct consecutively (for any
square-root oracle nonnegative on nonnegative arguments): a negative
discriminant yields no candidate for that segment; for a nondegenerate
segment with nonnegative discriminant `q[0]` is the lower of the two
roots, and when both roots lie in `[0, 1]` the candidate point is the
one determined by `q[0]`; and the returned lookahead point is the
candidate of the LAST (highest-index) segment that yielded a valid
root — the loop does not stop at the first valid segment. -/
theorem choose_lookahead_pt_spec (rsqrt : ℚ → ℚ) (cur : Pose) (L : ℚ) (path : List Pt)
    (hsq : ∀ x : ℚ, 0 ≤ x → 0 ≤ rsqrt x)
    (hlen : 2 ≤ path.length)
    (hdis : path.Chain' (fun p q : Pt => p ≠ q)) :
    (∀ p q : Pt, segDisc cur L p q < 0 → segStep rsqrt cur L p q = .ok none) ∧
    (∀ p q : Pt, p ≠ q → 0 ≤ segDisc cur L p q →
      segQ0 rsqrt cur L p q ≤ segQ1 rsqrt cur L p q ∧
      ((0 ≤ segQ0 rsqrt cur L p q ∧ segQ0 rsqrt cur L p q ≤ 1) →
        (0 ≤ segQ1 rsqrt cur L p q ∧ segQ1 rsqrt cur L p q ≤ 1) →
        segStep rsqrt cur L p q = .ok (some (segPtAt p q (segQ0 rsqrt cur L p q))))) ∧
    choose_lookahead_pt rsqrt cur L path =
      .ok (((path.zip path.tail).filterMap (segCand rsqrt cur L)).getLast?) := by
  refine ⟨?_, ?_, ?_⟩
  · intro p q hneg
    unfold segStep
    rw [if_pos hneg]
  · intro p q hpq hnn
    have ha := segA_pos hpq
    have hD : 0 ≤ rsqrt (segDisc cur L p q) := hsq _ hnn
    have hq01 : segQ0 rsqrt cur L p q ≤ segQ1 rsqrt cur L p q := by
      unfold segQ0 segQ1
      rw [div_le_div_iff_of_pos_right (by linarith)]
      linarith
    refine ⟨hq01, ?_⟩
    intro hv0 _
    unfold segStep
    rw [if_neg (by linarith : ¬segDisc cur L p q < 0),
      if_neg (by linarith : ¬(2 * segA p q = 0)), if_pos hv0]
  · rcases path with _ | ⟨p0, _ | ⟨p1, r⟩⟩
    · norm_num at hlen
    · norm_num at hlen
    · have hok : ∀ pq ∈ (p0 :: p1 :: r).zip (p1 :: r),
          ∃ v, segStep rsqrt cur L pq.1 pq.2 = .ok v := by
        intro pq hm
        exact segStep_isOk rsqrt cur L (chain_zip_tail hdis pq hm)
      show chooseAux rsqrt cur L none p0 (p1 :: r) = _
      rw [chooseAux_eq rsqrt cur L (p1 :: r) p0 none hok]
      rfl

/-- C5 witness: the theorem applied at a concrete two-waypoint path at
the initial radius, with the zero square-root oracle. -/
theorem choose_lookahead_pt_spec_witness :
    choose_lookahead_pt (fun _ => (0 : ℚ)) (Pose.mk 0 0 0) (1 / 5)
      [((10 : ℚ), (3 : ℚ)), (5, 3)] =
      .ok ((([((10 : ℚ), (3 : ℚ)), (5, 3)].zip
        ([((10 : ℚ), (3 : ℚ)), (5, 3)].tail)).filterMap
          (segCand (fun _ => (0 : ℚ)) (Pose.mk 0 0 0) (1 / 5))).getLast?) :=
  (choose_lookahead_pt_spec (fun _ => (0 : ℚ)) (Pose.mk 0 0 0) (1 / 5)
    [((10 : ℚ), (3 : ℚ)), (5, 3)] (fun _ _ => le_refl 0) (by norm_num)
    (by norm_num [List.chain'_cons, Prod.mk.injEq])).2.2

/-- C10: for every path in which no two consecutive waypoints are
identical, the quadratic coefficient `a` of every segment is strictly
positive, so no root computation divides by zero and
`choose_lookahead_pt` returns an `.ok` value for every pose, radius and
square-root oracle; by contrast a concrete path with a duplicated
consecutive waypoint raises `ZeroDivisionError` (for every oracle),
i.e. lies outside the guarantee. -/
theorem choose_lookahead_pt_total (rsqrt : ℚ → ℚ) (cur : Pose) (L : ℚ) (path : List Pt)
    (hdis : path.Chain' (fun p q : Pt => p ≠ q)) :
    (∀ pq ∈ path.zip path.tail, 0 < segA pq.1 pq.2) ∧
    (∃ v, choose_lookahead_pt rsqrt cur L path = .ok v) ∧
    (∀ rs : ℚ → ℚ, choose_lookahead_pt rs (Pose.mk 0 0 0) 1 [((1 : ℚ), (1 : ℚ)), (1, 1)] =
      .error "ZeroDivisionError") := by
  refine ⟨?_, ?_, ?_⟩
  · intro pq hm
    exact segA_pos (chain_zip_tail hdis pq hm)
  · match path with
    | [] => exact ⟨none, rfl⟩
    | [p] => exact ⟨some p, rfl⟩
    | p0 :: p1 :: r =>
      have hok : ∀ pq ∈ (p0 :: p1 :: r).zip (p1 :: r),
          ∃ v, segStep rsqrt cur L pq.1 pq.2 = .ok v := by
        intro pq hm
        exact segStep_isOk rsqrt cur L (chain_zip_tail hdis pq hm)
      exact ⟨_, chooseAux_eq rsqrt cur L (p1 :: r) p0 none hok⟩
  · intro rs
    have hseg : segStep rs (Pose.mk 0 0 0) 1 ((1 : ℚ), (1 : ℚ)) ((1 : ℚ), (1 : ℚ)) =
        .error "ZeroDivisionError" := by
      unfold segStep
      rw [if_neg (by norm_num [segDisc, segA, segB, segC]),
        if_pos (by norm_num [segA])]
    show chooseAux rs (Pose.mk 0 0 0) 1 none ((1 : ℚ), (1 : ℚ)) [((1 : ℚ), (1 : ℚ))] = _
    rw [chooseAux, hseg]

/-- C10 witness: the totality statement applied to a concrete
two-waypoint path with distinct consecutive waypoints. -/
theorem choose_lookahead_pt_total_witness :
    ∃ v, choose_lookahead_pt (fun _ => (0 : ℚ)) (Pose.mk 0 0 0) (1 / 5)
      [((1 : ℚ), (0 : ℚ)), (2, 0)] = .ok v :=
  (choose_lookahead_pt_total (fun _ => (0 : ℚ)) (Pose.mk 0 0 0) (1 / 5)
    [((1 : ℚ), (0 : ℚ)), (2, 0)]
    (by norm_num [List.chain'_cons, Prod.mk.injEq])).2.1

/-! ## OccupancyRayCaster: `locobot_interface.py`, `get_lidar` -/

/-- One range reading of a `RangeScan`, together with the oracle values
of `sin` and `cos` of its beam angle `angle_min + i*angle_increment`
(the embedding abstracts the transcendental evaluation; no claim here
depends on the trigonometric values). -/
structure Beam where
  range : ℚ
  sinA : ℚ
  cosA : ℚ

/-- A `RangeScan`: validity bounds and the ordered beams. -/
structure Scan where
  range_min : ℚ
  range_max : ℚ
  beams : List Beam

/-- The inner loop body of the `bresenham` generator (pip package
`bresenham` imported by `locobot_interface.py`): for `x` in
`range(dx + 1)` yield the transformed cell, then update the error
accumulator `D` (and `y` when `D >= 0`).  The first argument is the
number of remaining iterations, `dx + 1` at the start. -/
def bresAux (x0 y0 xx xy yx yy dx dy : ℤ) : ℕ → ℤ → ℤ → ℤ → List (ℤ × ℤ)
  | 0, _, _, _ => []
  | n + 1, x, y, D =>
    (x0 + x * xx + y * yx, y0 + x * xy + y * yy) ::
      (if 0 ≤ D then bresAux x0 y0 xx xy yx yy dx dy n (x + 1) (y + 1) (D - 2 * dx + 2 * dy)
       else bresAux x0 y0 xx xy yx yy dx dy n (x + 1) y (D + 2 * dy))

/-- The `bresenham(x0, y0, x1, y1)` generator: sign extraction, the
axis swap when `dy >= dx`, and the integer error loop. -/
def bresenham (x0 y0 x1 y1 : ℤ) : List (ℤ × ℤ) :=
  let dx := x1 - x0
  let dy := y1 - y0
  let xsign : ℤ := if 0 < dx then 1 else -1
  let ysign : ℤ := if 0 < dy then 1 else -1
  if |dy| < |dx| then
    bresAux x0 y0 xsign 0 0 ysign |dx| |dy| (|dx|.toNat + 1) 0 0 (2 * |dy| - |dx|)
  else
    bresAux x0 y0 0 ysign ysign 0 |dy| |dx| (|dy|.toNat + 1) 0 0 (2 * |dx| - |dy|)

/-- The full (unclipped) ray of one beam: grid center at
`shape // 2`, hit cell `(center_r + int(dist_px*sin), center_c -
int(dist_px*cos))`, max-range cell likewise from
`max_range_px = range_max / resolution`, rasterized with `bresenham`. -/
def beamRay (N : ℕ) (res rmax : ℚ) (b : Beam) : List (ℤ × ℤ) :=
  let center : ℤ := (N / 2 : ℕ)
  let dist_px := b.range / res
  let max_range_px := rmax / res
  bresenham (center + pyInt (dist_px * b.sinA)) (center - pyInt (dist_px * b.cosA))
    (center + pyInt (max_range_px * b.sinA)) (center - pyInt (max_range_px * b.cosA))

/-- The bounds test of the marking loop:
`r >= 0 and c >= 0 and r < shape[0] and c < shape[1]`. -/
def inBounds (N : ℕ) (cell : ℤ × ℤ) : Bool :=
  decide (0 ≤ cell.1 ∧ 0 ≤ cell.2 ∧ cell.1 < (N : ℤ) ∧ cell.2 < (N : ℤ))

/-- The cells one beam marks: its ray truncated at (and excluding) the
first out-of-bounds cell (`break` in the marking loop). -/
def beamTrace (N : ℕ) (res rmax : ℚ) (b : Beam) : List (ℤ × ℤ) :=
  (beamRay N res rmax b).takeWhile (inBounds N)

/-- Mark a list of cells occupied (`local_occ_meas[r, c] = 0`). -/
def markCells (g : ℤ → ℤ → ℚ) : List (ℤ × ℤ) → ℤ → ℤ → ℚ
  | [] => g
  | cell :: rest =>
    markCells (fun r c => if r = cell.1 ∧ c = cell.2 then 0 else g r c) rest

/-- The beam loop of `get_lidar`: skip beams with range outside
`[range_min, range_max]`, mark the truncated trace of the others. -/
def get_lidar_aux (N : ℕ) (res : ℚ) (s : Scan) : List Beam → (ℤ → ℤ → ℚ) → ℤ → ℤ → ℚ
  | [], g => g
  | b :: rest, g =>
    get_lidar_aux N res s rest
      (if s.range_min ≤ b.range ∧ b.range ≤ s.range_max then
        markCells g (beamTrace N res s.range_max b)
      else g)

/-- The local occupancy grid `get_lidar` builds from one scan:
`np.ones((N, N))` (all free), then the beam loop. -/
def get_lidar_grid (N : ℕ) (res : ℚ) (s : Scan) : ℤ → ℤ → ℚ :=
  get_lidar_aux N res s s.beams (fun _ _ => 1)

/-- Rows of the forward sub-window:
`shape[0]//3 : 2*shape[0]//3` (middle third). -/
def frontWindowRows (N : ℕ) : Finset ℤ :=
  Finset.Ico ((N / 3 : ℕ) : ℤ) ((2 * N / 3 : ℕ) : ℤ)

/-- Columns of the forward sub-window: `2*shape[0]//3 :` (last third). -/
def frontWindowCols (N : ℕ) : Finset ℤ :=
  Finset.Ico ((2 * N / 3 : ℕ) : ℤ) (N : ℤ)

/-- `np.mean` of the forward sub-window. -/
def frontWindowMean (N : ℕ) (g : ℤ → ℤ → ℚ) : ℚ :=
  (∑ r ∈ frontWindowRows N, ∑ c ∈ frontWindowCols N, g r c) /
    (((frontWindowRows N).card : ℚ) * ((frontWindowCols N).card : ℚ))

/-- The forward-obstruction flag
`g_lidar_detects_robot_facing_wall = front_cell_mean <= 0.75`,
recomputed from each fresh grid (hence on every scan arrival). -/
def facing_wall (N : ℕ) (g : ℤ → ℤ → ℚ) : Bool :=
  decide (frontWindowMean N g ≤ 3 / 4)

/-! ## Helper lemmas for the ray caster -/

theorem markCells_spec : ∀ (cells : List (ℤ × ℤ)) (g : ℤ → ℤ → ℚ) (r c : ℤ),
    markCells g cells r c = if (r, c) ∈ cells then 0 else g r c := by
  intro cells
  induction cells with
  | nil => intro g r c; simp [markCells]
  | cons cell rest ih =>
    intro g r c
    show markCells _ rest r c = _
    rw [ih]
    by_cases hm : (r, c) ∈ rest
    · rw [if_pos hm, if_pos (List.mem_cons.mpr (Or.inr hm))]
    · rw [if_neg hm]
      by_cases he : (r, c) = cell
      · rw [if_pos (Prod.ext_iff.mp he), if_pos (List.mem_cons.mpr (Or.inl he))]
      · rw [if_neg (fun hc => he (Prod.ext_iff.mpr hc)),
          if_neg (fun hc => (List.mem_cons.mp hc).elim he hm)]

theorem get_lidar_aux_spec (N : ℕ) (res : ℚ) (s : Scan) :
    ∀ (bs : List Beam) (g : ℤ → ℤ → ℚ) (r c : ℤ),
      get_lidar_aux N res s bs g r c =
        if ∃ b ∈ bs, (s.range_min ≤ b.range ∧ b.range ≤ s.range_max) ∧
            (r, c) ∈ beamTrace N res s.range_max b then 0 else g r c := by
  intro bs
  induction bs with
  | nil => intro g r c; simp [get_lidar_aux]
  | cons b rest ih =>
    intro g r c
    show get_lidar_aux N res s rest _ r c = _
    rw [ih]
    by_cases hrest : ∃ b ∈ rest, (s.range_min ≤ b.range ∧ b.range ≤ s.range_max) ∧
        (r, c) ∈ beamTrace N res s.range_max b
    · rw [if_pos hrest, if_pos ?_]
      obtain ⟨b', hb', hp⟩ := hrest
      exact ⟨b', List.mem_cons.mpr (Or.inr hb'), hp⟩
    · rw [if_neg hrest]
      by_cases hval : s.range_min ≤ b.range ∧ b.range ≤ s.range_max
      · rw [if_pos hval, markCells_spec]
        by_cases hmem : (r, c) ∈ beamTrace N res s.range_max b
        · rw [if_pos hmem, if_pos ⟨b, List.mem_cons.mpr (Or.inl rfl), hval, hmem⟩]
        · rw [if_neg hmem, if_neg ?_]
          rintro ⟨b', hb', hv', hm'⟩
          rcases List.mem_cons.mp hb' with rfl | hb'
          · exact hmem hm'
          · exact hrest ⟨b', hb', hv', hm'⟩
      · rw [if_neg hval, if_neg ?_]
        rintro ⟨b', hb', hv', hm'⟩
        rcases List.mem_cons.mp hb' with rfl | hb'
        · exact hval hv'
        · exact hrest ⟨b', hb', hv', hm'⟩

/-! ## Claim theorems for the ray caster -/

/-- C6: for every scan, grid size and resolution, every cell of the
produced occupancy grid is occupied (`0`) exactly when it lies on the
truncated Bresenham trace — from the hit cell to the max-range cell,
cut at (and excluding) the first out-of-bounds cell — of some beam
whose range lies in the closed interval `[range_min, range_max]`; every
other cell keeps its initial all-free value `1`, and beams with range
outside the interval contribute no cell changes. -/
theorem get_lidar_grid_spec (N : ℕ) (res : ℚ) (s : Scan) (r c : ℤ) :
    get_lidar_grid N res s r c =
      if ∃ b ∈ s.beams, (s.range_min ≤ b.range ∧ b.range ≤ s.range_max) ∧
          (r, c) ∈ beamTrace N res s.range_max b then 0 else 1 :=
  get_lidar_aux_spec N res s s.beams (fun _ _ => 1) r c

/-- C7: the forward-obstruction flag computed from a fresh grid is true
exactly when the mean of the forward sub-window (middle third of rows,
last third of columns) is at most 0.75; a grid that is all-free on the
window yields `false` and one fully occupied on the window yields
`true` (for any grid size of at least 2, so the window is nonempty). -/
theorem facing_wall_spec (N : ℕ) (g : ℤ → ℤ → ℚ) (hN : 2 ≤ N) :
    (facing_wall N g = true ↔ frontWindowMean N g ≤ 3 / 4) ∧
    ((∀ r ∈ frontWindowRows N, ∀ c ∈ frontWindowCols N, g r c = 1) →
      facing_wall N g = false) ∧
    ((∀ r ∈ frontWindowRows N, ∀ c ∈ frontWindowCols N, g r c = 0) →
      facing_wall N g = true) := by
  have hrow : ((N / 3 : ℕ) : ℤ) < ((2 * N / 3 : ℕ) : ℤ) := by
    have : N / 3 < 2 * N / 3 := by
      rcases Nat.lt_or_ge N 3 with h3 | h3
      · interval_cases N
        · norm_num
      · omega
    exact_mod_cast this
  have hcol : ((2 * N / 3 : ℕ) : ℤ) < (N : ℤ) := by
    have : 2 * N / 3 < N := by omega
    exact_mod_cast this
  have hcr : 0 < ((frontWindowRows N).card : ℚ) := by
    have := Finset.card_pos.mpr (Finset.nonempty_Ico.mpr hrow)
    exact_mod_cast this
  have hcc : 0 < ((frontWindowCols N).card : ℚ) := by
    have := Finset.card_pos.mpr (Finset.nonempty_Ico.mpr hcol)
    exact_mod_cast this
  refine ⟨by simp [facing_wall], ?_, ?_⟩
  · intro hone
    have hsum : (∑ r ∈ frontWindowRows N, ∑ c ∈ frontWindowCols N, g r c) =
        ((frontWindowRows N).card : ℚ) * ((frontWindowCols N).card : ℚ) := by
      rw [Finset.sum_congr rfl (fun r hr =>
        Finset.sum_congr rfl (fun c hc => hone r hr c hc))]
      simp [Finset.sum_const, mul_comm]
    have hmean : frontWindowMean N g = 1 := by
      unfold frontWindowMean
      rw [hsum]
      exact div_self (by positivity)
    simp [facing_wall, hmean]
    norm_num
  · intro hzero
    have hsum : (∑ r ∈ frontWindowRows N, ∑ c ∈ frontWindowCols N, g r c) = 0 := by
      rw [Finset.sum_congr rfl (fun r hr =>
        Finset.sum_congr rfl (fun c hc => hzero r hr c hc))]
      simp
    have hmean : frontWindowMean N g = 0 := by
      unfold frontWindowMean
      rw [hsum, zero_div]
    simp [facing_wall, hmean]
    norm_num

/-- C7 witness: the empty scan yields the all-ones grid, whose forward
window is all-free, so the flag is false; and the flag agrees with the
threshold test there. -/
theorem facing_wall_spec_witness :
    facing_wall 3 (get_lidar_grid 3 1 (Scan.mk 0 0 [])) = false ∧
    (facing_wall 3 (get_lidar_grid 3 1 (Scan.mk 0 0 [])) = true ↔
      frontWindowMean 3 (get_lidar_grid 3 1 (Scan.mk 0 0 [])) ≤ 3 / 4) :=
  ⟨(facing_wall_spec 3 (get_lidar_grid 3 1 (Scan.mk 0 0 [])) (by norm_num)).2.1
      (fun r _ c _ => rfl),
   (facing_wall_spec 3 (get_lidar_grid 3 1 (Scan.mk 0 0 [])) (by norm_num)).1⟩

/-! ## Panorama corner repair: `runner_node.py`, `get_pano_meas` -/

/-- A rectangular block of grid cells: rows `[r0, r1)`, columns
`[c0, c1)`. -/
structure Block where
  r0 : ℤ
  r1 : ℤ
  c0 : ℤ
  c1 : ℤ

/-- Membership of a cell in a block. -/
def cellIn (B : Block) (r c : ℤ) : Prop :=
  B.r0 ≤ r ∧ r < B.r1 ∧ B.c0 ≤ c ∧ c < B.c1

instance (B : Block) (r c : ℤ) : Decidable (cellIn B r c) := by
  unfold cellIn
  infer_instance

/-- `np.mean` of one block. -/
def blockMean (g : ℤ → ℤ → ℚ) (B : Block) : ℚ :=
  (∑ r ∈ Finset.Ico B.r0 B.r1, ∑ c ∈ Finset.Ico B.c0 B.c1, g r c) /
    (((Finset.Ico B.r0 B.r1).card : ℚ) * ((Finset.Ico B.c0 B.c1).card : ℚ))

/-- Set a whole block occupied, e.g.
`local_occ_meas[:one_third, :one_third] = 0`. -/
def forceBlock (g : ℤ → ℤ → ℚ) (B : Block) : ℤ → ℤ → ℚ :=
  fun r c => if cellIn B r c then 0 else g r c

/-- One corner-check paragraph of `get_pano_meas`: compute the block
occupied percent `1 - np.mean(block)` and force the block occupied when
it is at least `occ_thresh = 0.1`. -/
def repairBlock (g : ℤ → ℤ → ℚ) (B : Block) : ℤ → ℤ → ℚ :=
  if 1 - blockMean g B ≥ 1 / 10 then forceBlock g B else g

/-- `one_third = shape[0] // 3`. -/
def oneThird (N : ℕ) : ℤ := ((N / 3 : ℕ) : ℤ)

/-- `two_thirds = (div-1) * shape[0] // div` with `div = 3`. -/
def twoThirds (N : ℕ) : ℤ := ((2 * N / 3 : ℕ) : ℤ)

/-- `top_left_block = local_occ_meas[:one_third, :one_third]`. -/
def tlBlock (N : ℕ) : Block := Block.mk 0 (oneThird N) 0 (oneThird N)

/-- `top_right_block = local_occ_meas[:one_third, two_thirds:]`. -/
def trBlock (N : ℕ) : Block := Block.mk 0 (oneThird N) (twoThirds N) (N : ℤ)

/-- `bot_right_block = local_occ_meas[two_thirds:, two_thirds:]`. -/
def brBlock (N : ℕ) : Block := Block.mk (twoThirds N) (N : ℤ) (twoThirds N) (N : ℤ)

/-- `bot_left_block = local_occ_meas[two_thirds:, :one_third]`. -/
def blBlock (N : ℕ) : Block := Block.mk (twoThirds N) (N : ℤ) 0 (oneThird N)

/-- The corner-repair stage of `get_pano_meas` (lines 270-293): the
four corner blocks checked and possibly forced, in source order
top-left, top-right, bottom-right, bottom-left, each reading the grid
as left by the previous step. -/
def corner_repair (N : ℕ) (g : ℤ → ℤ → ℚ) : ℤ → ℤ → ℚ :=
  repairBlock (repairBlock (repairBlock (repairBlock g (tlBlock N)) (trBlock N))
    (brBlock N)) (blBlock N)

/-- The element-wise minimum merge
`np.min([east, south, west, north], axis=0)` of the four aligned
grids (occupied 0 dominates free 1). -/
def mergeMin (g1 g2 g3 g4 : ℤ → ℤ → ℚ) : ℤ → ℤ → ℚ :=
  fun r c => min (min (min (g1 r c) (g2 r c)) (g3 r c)) (g4 r c)

/-! ## Helper lemmas for corner repair -/

theorem repairBlock_outside (g : ℤ → ℤ → ℚ) (B : Block) (r c : ℤ)
    (h : ¬ cellIn B r c) : repairBlock g B r c = g r c := by
  unfold repairBlock forceBlock
  by_cases h1 : 1 - blockMean g B ≥ 1 / 10
  · rw [if_pos h1]
    show (if cellIn B r c then (0 : ℚ) else g r c) = g r c
    exact if_neg h
  · rw [if_neg h1]

theorem repairBlock_inside (g : ℤ → ℤ → ℚ) (B : Block) (r c : ℤ)
    (h : cellIn B r c) :
    repairBlock g B r c = if 1 - blockMean g B ≥ 1 / 10 then 0 else g r c := by
  unfold repairBlock forceBlock
  by_cases h1 : 1 - blockMean g B ≥ 1 / 10
  · rw [if_pos h1, if_pos h1]
    show (if cellIn B r c then (0 : ℚ) else g r c) = 0
    exact if_pos h
  · rw [if_neg h1, if_neg h1]

theorem repairBlock_mean_eq (g : ℤ → ℤ → ℚ) (B B' : Block)
    (hdisj : ∀ r c, cellIn B r c → ¬ cellIn B' r c) :
    blockMean (repairBlock g B') B = blockMean g B := by
  unfold blockMean
  congr 1
  apply Finset.sum_congr rfl
  intro r hr
  apply Finset.sum_congr rfl
  intro c hc
  apply repairBlock_outside
  apply hdisj
  exact ⟨(Finset.mem_Ico.mp hr).1, (Finset.mem_Ico.mp hr).2,
    (Finset.mem_Ico.mp hc).1, (Finset.mem_Ico.mp hc).2⟩

theorem oneThird_le_twoThirds (N : ℕ) : oneThird N ≤ twoThirds N := by
  unfold oneThird twoThirds
  have : N / 3 ≤ 2 * N / 3 := Nat.div_le_div_right (by omega)
  exact_mod_cast this

/-! ## Claim theorems for corner repair -/

/-- C8 counterexample: a 30x30 grid whose top-left corner block
(`[0,10) x [0,10)`, 100 cells) has exactly 10 occupied cells, an
occupied fraction of exactly 0.1 — NOT strictly exceeding the 0.1
threshold.  The claim says the block is left unchanged, but the code
compares with `>=` and forces the whole block occupied: the free cell
`(5, 5)` becomes occupied. -/
theorem corner_repair_threshold_counterexample :
    1 - blockMean (fun r c => if r = 0 ∧ 0 ≤ c ∧ c < 10 then 0 else 1) (tlBlock 30) =
      1 / 10 ∧
    (fun r c => if r = 0 ∧ 0 ≤ c ∧ c < 10 then (0 : ℚ) else 1) 5 5 = 1 ∧
    corner_repair 30 (fun r c => if r = 0 ∧ 0 ≤ c ∧ c < 10 then 0 else 1) 5 5 = 0 := by
  have hmean : blockMean (fun r c => if r = 0 ∧ 0 ≤ c ∧ c < 10 then (0 : ℚ) else 1)
      (tlBlock 30) = 9 / 10 := by
    have hone : oneThird 30 = 10 := by norm_num [oneThird]
    unfold blockMean
    rw [show tlBlock 30 = Block.mk 0 10 0 10 by rw [tlBlock, hone]]
    have hinner : ∀ r ∈ Finset.Ico (0 : ℤ) 10,
        (∑ c ∈ Finset.Ico (0 : ℤ) 10,
          (fun r c => if r = 0 ∧ 0 ≤ c ∧ c < 10 then (0 : ℚ) else 1) r c) =
          if r = 0 then 0 else 10 := by
      intro r _
      by_cases hr : r = 0
      · rw [if_pos hr]
        have hc0 : ∀ c ∈ Finset.Ico (0 : ℤ) 10,
            (fun r c => if r = 0 ∧ 0 ≤ c ∧ c < 10 then (0 : ℚ) else 1) r c = 0 := by
          intro c hc
          show (if r = 0 ∧ 0 ≤ c ∧ c < 10 then (0 : ℚ) else 1) = 0
          exact if_pos ⟨hr, (Finset.mem_Ico.mp hc).1, (Finset.mem_Ico.mp hc).2⟩
        rw [Finset.sum_congr rfl hc0]
        exact Finset.sum_const_zero
      · rw [if_neg hr]
        have hc1 : ∀ c ∈ Finset.Ico (0 : ℤ) 10,
            (fun r c => if r = 0 ∧ 0 ≤ c ∧ c < 10 then (0 : ℚ) else 1) r c = 1 := by
          intro c _
          show (if r = 0 ∧ 0 ≤ c ∧ c < 10 then (0 : ℚ) else 1) = 1
          exact if_neg (fun hx => hr hx.1)
        rw [Finset.sum_congr rfl hc1, Finset.sum_const, Int.card_Ico,
          show Int.toNat (10 - 0) = 10 from rfl]
        norm_num
    rw [Finset.sum_congr rfl hinner]
    have houter : (∑ r ∈ Finset.Ico (0 : ℤ) 10, if r = 0 then (0 : ℚ) else 10) = 90 := by
      have hsplit : ∀ r : ℤ, (if r = 0 then (0 : ℚ) else 10) =
          10 - (if (0 : ℤ) = r then 10 else 0) := by
        intro r
        by_cases hr : r = 0
        · rw [if_pos hr, if_pos hr.symm]; norm_num
        · rw [if_neg hr, if_neg (fun hx => hr hx.symm)]; norm_num
      rw [Finset.sum_congr rfl (fun r _ => hsplit r), Finset.sum_sub_distrib,
        Finset.sum_const, Finset.sum_ite_eq, Int.card_Ico]
      rw [if_pos (Finset.mem_Ico.mpr (by norm_num)),
        show Int.toNat (10 - 0) = 10 from rfl]
      norm_num
    rw [houter, Int.card_Ico, show Int.toNat (10 - 0) = 10 from rfl]
    norm_num
  refine ⟨by rw [hmean]; norm_num, by norm_num, ?_⟩
  have hcell : cellIn (tlBlock 30) 5 5 := by
    unfold cellIn tlBlock oneThird
    norm_num
  have hnot : ∀ B ∈ [trBlock 30, brBlock 30, blBlock 30],
      ¬ cellIn B (5 : ℤ) (5 : ℤ) := by
    intro B hB
    fin_cases hB <;>
      (simp only [trBlock, brBlock, blBlock, cellIn, twoThirds, oneThird]; norm_num)
  unfold corner_repair
  rw [repairBlock_outside _ _ _ _ (hnot (blBlock 30) (by simp)),
    repairBlock_outside _ _ _ _ (hnot (brBlock 30) (by simp)),
    repairBlock_outside _ _ _ _ (hnot (trBlock 30) (by simp)),
    repairBlock_inside _ _ _ _ hcell]
  rw [hmean]
  norm_num

/-- C8 (amended): after the element-wise-minimum merge, each of the
four corner blocks is forced entirely occupied exactly when its
occupied fraction (one minus its mean, measured on the merged grid) is
GREATER THAN OR EQUAL to 0.1, and is left unchanged otherwise; cells
belonging to no corner block are never changed.  (The claim said
"strictly exceeds 0.1"; the code compares with `>=`.) -/
theorem corner_repair_spec (N : ℕ) (g : ℤ → ℤ → ℚ) (r c : ℤ) :
    (∀ B ∈ [tlBlock N, trBlock N, brBlock N, blBlock N],
      cellIn B r c →
        corner_repair N g r c = if 1 - blockMean g B ≥ 1 / 10 then 0 else g r c) ∧
    ((∀ B ∈ [tlBlock N, trBlock N, brBlock N, blBlock N], ¬ cellIn B r c) →
      corner_repair N g r c = g r c) := by
  have h13 := oneThird_le_twoThirds N
  have hD1 : ∀ x y : ℤ, cellIn (tlBlock N) x y → cellIn (trBlock N) x y → False := by
    intro x y hx hy
    simp only [cellIn, tlBlock, trBlock] at hx hy
    omega
  have hD2 : ∀ x y : ℤ, cellIn (tlBlock N) x y → cellIn (brBlock N) x y → False := by
    intro x y hx hy
    simp only [cellIn, tlBlock, brBlock] at hx hy
    omega
  have hD3 : ∀ x y : ℤ, cellIn (tlBlock N) x y → cellIn (blBlock N) x y → False := by
    intro x y hx hy
    simp only [cellIn, tlBlock, blBlock] at hx hy
    omega
  have hD4 : ∀ x y : ℤ, cellIn (trBlock N) x y → cellIn (brBlock N) x y → False := by
    intro x y hx hy
    simp only [cellIn, trBlock, brBlock] at hx hy
    omega
  have hD5 : ∀ x y : ℤ, cellIn (trBlock N) x y → cellIn (blBlock N) x y → False := by
    intro x y hx hy
    simp only [cellIn, trBlock, blBlock] at hx hy
    omega
  have hD6 : ∀ x y : ℤ, cellIn (brBlock N) x y → cellIn (blBlock N) x y → False := by
    intro x y hx hy
    simp only [cellIn, brBlock, blBlock] at hx hy
    omega
  constructor
  · intro B hB hcell
    fin_cases hB
    · -- top-left block: decided first, untouched by the later repairs.
      have hn_tr : ¬ cellIn (trBlock N) r c := fun h => hD1 r c hcell h
      have hn_br : ¬ cellIn (brBlock N) r c := fun h => hD2 r c hcell h
      have hn_bl : ¬ cellIn (blBlock N) r c := fun h => hD3 r c hcell h
      unfold corner_repair
      rw [repairBlock_outside _ _ _ _ hn_bl, repairBlock_outside _ _ _ _ hn_br,
        repairBlock_outside _ _ _ _ hn_tr, repairBlock_inside _ _ _ _ hcell]
    · -- top-right block: reads the grid after the top-left repair,
      -- whose writes are disjoint from it.
      have hn_tl : ¬ cellIn (tlBlock N) r c := fun h => hD1 r c h hcell
      have hn_br : ¬ cellIn (brBlock N) r c := fun h => hD4 r c hcell h
      have hn_bl : ¬ cellIn (blBlock N) r c := fun h => hD5 r c hcell h
      unfold corner_repair
      rw [repairBlock_outside _ _ _ _ hn_bl, repairBlock_outside _ _ _ _ hn_br,
        repairBlock_inside _ _ _ _ hcell,
        repairBlock_mean_eq g (trBlock N) (tlBlock N) (fun x y h h' => hD1 x y h' h),
        repairBlock_outside _ _ _ _ hn_tl]
    · -- bottom-right block.
      have hn_tl : ¬ cellIn (tlBlock N) r c := fun h => hD2 r c h hcell
      have hn_tr : ¬ cellIn (trBlock N) r c := fun h => hD4 r c h hcell
      have hn_bl : ¬ cellIn (blBlock N) r c := fun h => hD6 r c hcell h
      unfold corner_repair
      rw [repairBlock_outside _ _ _ _ hn_bl, repairBlock_inside _ _ _ _ hcell,
        repairBlock_mean_eq _ (brBlock N) (trBlock N) (fun x y h h' => hD4 x y h' h),
        repairBlock_mean_eq g (brBlock N) (tlBlock N) (fun x y h h' => hD2 x y h' h),
        repairBlock_outside _ _ _ _ hn_tr, repairBlock_outside _ _ _ _ hn_tl]
    · -- bottom-left block.
      have hn_tl : ¬ cellIn (tlBlock N) r c := fun h => hD3 r c h hcell
      have hn_tr : ¬ cellIn (trBlock N) r c := fun h => hD5 r c h hcell
      have hn_br : ¬ cellIn (brBlock N) r c := fun h => hD6 r c h hcell
      unfold corner_repair
      rw [repairBlock_inside _ _ _ _ hcell,
        repairBlock_mean_eq _ (blBlock N) (brBlock N) (fun x y h h' => hD6 x y h' h),
        repairBlock_mean_eq _ (blBlock N) (trBlock N) (fun x y h h' => hD5 x y h' h),
        repairBlock_mean_eq g (blBlock N) (tlBlock N) (fun x y h h' => hD3 x y h' h),
        repairBlock_outside _ _ _ _ hn_br, repairBlock_outside _ _ _ _ hn_tr,
        repairBlock_outside _ _ _ _ hn_tl]
  · intro hall
    unfold corner_repair
    rw [repairBlock_outside _ _ _ _ (hall (blBlock N) (by simp)),
      repairBlock_outside _ _ _ _ (hall (brBlock N) (by simp)),
      repairBlock_outside _ _ _ _ (hall (trBlock N) (by simp)),
      repairBlock_outside _ _ _ _ (hall (tlBlock N) (by simp))]

/-- C8 witness: the amended theorem applied to the all-free 3x3 grid at
the center cell, which lies in no corner block, so it is unchanged. -/
theorem corner_repair_spec_witness :
    corner_repair 3 (fun _ _ => (1 : ℚ)) 1 1 = 1 :=
  (corner_repair_spec 3 (fun _ _ => (1 : ℚ)) 1 1).2 (by
    intro B hB
    fin_cases hB <;>
      (simp only [tlBlock, trBlock, brBlock, blBlock, cellIn, oneThird, twoThirds]
       norm_num))

/-! ## CommandGovernor: the clamp stage, `motion_planning_node.py` -/

/-- Modelled from the spec: the `clamp(value, min, max)` helper
imported from `scripts/cmn_utilities.py`, a file that is not among the
analyzed sources; the spec describes it as the pure function clamping a
value into the interval `[minimum, maximum]`. -/
def clamp (value minimum maximum : ℚ) : ℚ :=
  min maximum (max minimum value)

/-- The clamp stage every command passes before actuation
(`publish_command` lines 64-66, identically `plan_path_to_goal` lines
168-170): `clamp(fwd, 0, g_max_fwd_cmd)` and
`clamp(ang, -g_max_ang_cmd, g_max_ang_cmd)`.  It always returns a
command (never rejects one). -/
def clamp_stage (fwd ang maxFwd maxAng : ℚ) : ℚ × ℚ :=
  (clamp fwd 0 maxFwd, clamp ang (-maxAng) maxAng)

/-- The warning of `plan_path_to_goal` (lines 171-172): flagged exactly
when clamping altered the command. -/
def clamp_warn (fwd ang maxFwd maxAng : ℚ) : Prop :=
  clamp fwd 0 maxFwd ≠ fwd ∨ clamp ang (-maxAng) maxAng ≠ ang

/-! ## Claim theorems for the clamp stage -/

/-- C2 counterexample: with a forward limit of 1, the input command
`(-2, 0)` has `|forward| = 2` exceeding the limit, and the claim says
the returned forward is the limit with the sign of the input preserved,
i.e. `-1`; the code clamps forward into `[0, limit]` and returns `0`. -/
theorem clamp_stage_not_sign_preserving :
    (1 : ℚ) < |(-2 : ℚ)| ∧
    (clamp_stage (-2) 0 1 1).1 = 0 ∧
    (clamp_stage (-2) 0 1 1).1 ≠ -1 := by
  refine ⟨by norm_num, ?_, ?_⟩
  · show min 1 (max 0 (-2 : ℚ)) = 0
    norm_num
  · show min 1 (max 0 (-2 : ℚ)) ≠ -1
    norm_num

/-- C2 (amended): the clamp stage before actuation clamps forward into
`[0, limit]` — an over-limit forward returns exactly the limit, but a
NEGATIVE forward returns 0, not the limit with sign preserved — while
angular is clamped symmetrically: an over-limit `|angular|` returns
exactly the angular limit with the sign of the input preserved.
In-range components pass unchanged, the stage never rejects a command,
and (in `plan_path_to_goal`) a warning is flagged exactly when the
clamp altered the command. -/
theorem clamp_stage_spec (fwd ang maxFwd maxAng : ℚ)
    (hf : 0 ≤ maxFwd) (ha : 0 ≤ maxAng) :
    (maxFwd < fwd → (clamp_stage fwd ang maxFwd maxAng).1 = maxFwd) ∧
    (fwd < 0 → (clamp_stage fwd ang maxFwd maxAng).1 = 0) ∧
    (0 ≤ fwd → fwd ≤ maxFwd → (clamp_stage fwd ang maxFwd maxAng).1 = fwd) ∧
    (maxAng < |ang| → (clamp_stage fwd ang maxFwd maxAng).2 =
      (if 0 ≤ ang then maxAng else -maxAng)) ∧
    (|ang| ≤ maxAng → (clamp_stage fwd ang maxFwd maxAng).2 = ang) ∧
    (¬ clamp_warn fwd ang maxFwd maxAng ↔
      clamp_stage fwd ang maxFwd maxAng = (fwd, ang)) := by
  refine ⟨?_, ?_, ?_, ?_, ?_, ?_⟩
  · intro h
    show min maxFwd (max 0 fwd) = maxFwd
    rw [max_eq_right (le_of_lt (lt_of_le_of_lt hf h)), min_eq_left (le_of_lt h)]
  · intro h
    show min maxFwd (max 0 fwd) = 0
    rw [max_eq_left (le_of_lt h), min_eq_right hf]
  · intro h0 h1
    show min maxFwd (max 0 fwd) = fwd
    rw [max_eq_right h0, min_eq_right h1]
  · intro h
    rcases lt_abs.mp h with h1 | h1
    · rw [if_pos (le_trans ha (le_of_lt h1))]
      show min maxAng (max (-maxAng) ang) = maxAng
      rw [max_eq_right (le_trans (neg_le_self ha) (le_of_lt h1)),
        min_eq_left (le_of_lt h1)]
    · have hang : ang < -maxAng := by linarith
      rw [if_neg (by linarith : ¬ 0 ≤ ang)]
      show min maxAng (max (-maxAng) ang) = -maxAng
      rw [max_eq_left (le_of_lt hang), min_eq_right (neg_le_self ha)]
  · intro h
    rcases abs_le.mp h with ⟨h1, h2⟩
    show min maxAng (max (-maxAng) ang) = ang
    rw [max_eq_right h1, min_eq_right h2]
  · unfold clamp_warn clamp_stage
    constructor
    · intro h
      rw [not_or, not_not, not_not] at h
      rw [h.1, h.2]
    · intro h
      rw [not_or, not_not, not_not]
      exact ⟨congrArg Prod.fst h, congrArg Prod.snd h⟩

/-- C2 witness: the amended theorem applied at a command exceeding both
limits: `(5, -3)` with limits `(1, 2)` clamps to `(1, -2)`. -/
theorem clamp_stage_spec_witness :
    (clamp_stage 5 (-3) 1 2).1 = 1 ∧ (clamp_stage 5 (-3) 1 2).2 = -2 :=
  ⟨(clamp_stage_spec 5 (-3) 1 2 (by norm_num) (by norm_num)).1 (by norm_num),
   ((clamp_stage_spec 5 (-3) 1 2 (by norm_num) (by norm_num)).2.2.2.1
      (by rw [abs_of_nonpos (by norm_num)]; norm_num)).trans (by norm_num)⟩

/-! ## Panorama capture buffers: `runner_node.py`
`pop_from_RGB_buffer` and `pop_from_depth_buffer`

The trace model: messages are tagged by arrival order (`ℕ`); `buf` is
the most-recent-measurement buffer as the pop begins, and `arrivals`
lists the messages the ingest callbacks will deliver after the pop
begins (the single cooperative dispatcher lets one callback run per
sleep of the wait loop).  A pop returns `none` when it would block
forever (empty buffer and no arrival ever coming). -/

/-- `pop_from_RGB_buffer`: wait only while the buffer is `None`, return
the buffered message, and blank the buffer AFTERWARDS.  A measurement
already buffered when the capture begins is returned as is. -/
def pop_from_RGB_buffer (buf : Option ℕ) (arrivals : List ℕ) :
    Option (ℕ × Option ℕ × List ℕ) :=
  match buf with
  | some m => some (m, none, arrivals)
  | none =>
    match arrivals with
    | a :: rest => some (a, none, rest)
    | [] => none

/-- `pop_from_depth_buffer`: blank the buffer FIRST (`so we make sure
the measurement has come in AFTER the pivot has finished`), then wait
for and return the next arrival; the return leaves the message in the
buffer (the next pop blanks it). -/
def pop_from_depth_buffer (buf : Option ℕ) (arrivals : List ℕ) :
    Option (ℕ × Option ℕ × List ℕ) :=
  match arrivals with
  | a :: rest => some (a, some a, rest)
  | [] => none

/-- The ingest callbacks firing between two pops (`get_RGB_image`,
`get_RS_depth_image`): `k` messages are delivered, each overwriting the
buffer, the most recent winning. -/
def deliver (buf : Option ℕ) (arrivals : List ℕ) (k : ℕ) : Option ℕ × List ℕ :=
  match (arrivals.take k).getLast? with
  | some m => (some m, arrivals.drop k)
  | none => (buf, arrivals)

/-! ## Claim theorems for the capture buffers -/

/-- C9 counterexample: an RGB capture beginning with a measurement
already in the buffer (tag 3) and NO measurement arriving after the
capture began returns that pre-existing measurement — it does not block
until the buffer is freshly populated.  This refutes the claim for the
RGB captures (the depth capture pre-blanks and is immune). -/
theorem rgb_pop_returns_stale_measurement :
    pop_from_RGB_buffer (some 3) [] = some (3, none, []) ∧ (3 : ℕ) ∉ ([] : List ℕ) :=
  ⟨rfl, by simp⟩

/-- C9 (amended): a depth capture never returns a pre-existing
measurement — whatever it returns is one of the arrivals after the call
began (the buffer is invalidated before waiting); an RGB capture
invalidates the buffer on consumption (but may return a measurement
buffered before the capture began); and, for any number of callback
deliveries in between, two successive captures of either kind never
return the same buffered measurement. -/
theorem buffer_pop_spec :
    (∀ (buf : Option ℕ) (arr : List ℕ) (m : ℕ) (b : Option ℕ) (rest : List ℕ),
      pop_from_depth_buffer buf arr = some (m, b, rest) → m ∈ arr) ∧
    (∀ (buf : Option ℕ) (arr : List ℕ) (m : ℕ) (b : Option ℕ) (rest : List ℕ),
      pop_from_RGB_buffer buf arr = some (m, b, rest) → b = none) ∧
    (∀ (buf : Option ℕ) (arr : List ℕ) (k : ℕ) (m₁ m₂ : ℕ) (b₁ b₂ : Option ℕ)
        (a₁ a₂ : List ℕ),
      (buf.toList ++ arr).Nodup →
      pop_from_RGB_buffer buf arr = some (m₁, b₁, a₁) →
      pop_from_RGB_buffer (deliver b₁ a₁ k).1 (deliver b₁ a₁ k).2 = some (m₂, b₂, a₂) →
      m₁ ≠ m₂) ∧
    (∀ (buf : Option ℕ) (arr : List ℕ) (k : ℕ) (m₁ m₂ : ℕ) (b₁ b₂ : Option ℕ)
        (a₁ a₂ : List ℕ),
      (buf.toList ++ arr).Nodup →
      pop_from_depth_buffer buf arr = some (m₁, b₁, a₁) →
      pop_from_depth_buffer (deliver b₁ a₁ k).1 (deliver b₁ a₁ k).2 = some (m₂, b₂, a₂) →
      m₁ ≠ m₂) := by
  -- A pop whose buffer was blanked and refilled only from `a` returns
  -- an element of `a`.
  have hrgb_mem : ∀ (a : List ℕ) (k : ℕ) (m : ℕ) (b' : Option ℕ) (a' : List ℕ),
      pop_from_RGB_buffer (deliver none a k).1 (deliver none a k).2 = some (m, b', a') →
      m ∈ a := by
    intro a k m b' a' h
    cases hlast : (a.take k).getLast? with
    | some mb =>
      simp only [deliver, hlast, pop_from_RGB_buffer, Option.some.injEq,
        Prod.mk.injEq] at h
      rw [← h.1]
      exact List.take_subset k a (List.mem_of_mem_getLast? hlast)
    | none =>
      cases a with
      | nil => simp [deliver, hlast, pop_from_RGB_buffer] at h
      | cons x xs =>
        simp only [deliver, hlast, pop_from_RGB_buffer, Option.some.injEq,
          Prod.mk.injEq] at h
        rw [← h.1]
        exact List.mem_cons_self x xs
  have hdepth_mem : ∀ (b : Option ℕ) (a : List ℕ) (k : ℕ) (m : ℕ) (b' : Option ℕ)
      (a' : List ℕ),
      pop_from_depth_buffer (deliver b a k).1 (deliver b a k).2 = some (m, b', a') →
      m ∈ a := by
    intro b a k m b' a' h
    cases hlast : (a.take k).getLast? with
    | some mb =>
      cases hd : a.drop k with
      | nil => simp [deliver, hlast, hd, pop_from_depth_buffer] at h
      | cons x xs =>
        simp only [deliver, hlast, hd, pop_from_depth_buffer, Option.some.injEq,
          Prod.mk.injEq] at h
        rw [← h.1]
        exact List.drop_subset k a (hd ▸ List.mem_cons_self x xs)
    | none =>
      cases a with
      | nil => simp [deliver, hlast, pop_from_depth_buffer] at h
      | cons x xs =>
        simp only [deliver, hlast, pop_from_depth_buffer, Option.some.injEq,
          Prod.mk.injEq] at h
        rw [← h.1]
        exact List.mem_cons_self x xs
  refine ⟨?_, ?_, ?_, ?_⟩
  · intro _buf arr m b rest h
    cases arr with
    | nil => simp [pop_from_depth_buffer] at h
    | cons a t =>
      simp only [pop_from_depth_buffer, Option.some.injEq, Prod.mk.injEq] at h
      rw [← h.1]
      exact List.mem_cons_self a t
  · intro buf arr m b rest h
    cases buf with
    | some m0 =>
      simp only [pop_from_RGB_buffer, Option.some.injEq, Prod.mk.injEq] at h
      exact h.2.1.symm
    | none =>
      cases arr with
      | nil => simp [pop_from_RGB_buffer] at h
      | cons a t =>
        simp only [pop_from_RGB_buffer, Option.some.injEq, Prod.mk.injEq] at h
        exact h.2.1.symm
  · intro buf arr k m₁ m₂ b₁ b₂ a₁ a₂ hnd h1 h2
    -- the first pop blanks the buffer; the returned message is gone
    -- from the stream the second pop can draw on.
    have hkey : b₁ = none ∧ m₁ ∉ a₁ := by
      cases buf with
      | some m0 =>
        simp only [pop_from_RGB_buffer, Option.some.injEq, Prod.mk.injEq] at h1
        simp only [Option.toList_some, List.singleton_append, List.nodup_cons] at hnd
        exact ⟨h1.2.1.symm, h1.2.2 ▸ h1.1 ▸ hnd.1⟩
      | none =>
        cases arr with
        | nil => simp [pop_from_RGB_buffer] at h1
        | cons a t =>
          simp only [pop_from_RGB_buffer, Option.some.injEq, Prod.mk.injEq] at h1
          simp only [Option.toList_none, List.nil_append, List.nodup_cons] at hnd
          exact ⟨h1.2.1.symm, h1.2.2 ▸ h1.1 ▸ hnd.1⟩
    intro hEq
    rw [hkey.1] at h2
    exact hkey.2 (hEq ▸ hrgb_mem a₁ k m₂ b₂ a₂ h2)
  · intro buf arr k m₁ m₂ b₁ b₂ a₁ a₂ hnd h1 h2
    have hkey : m₁ ∉ a₁ := by
      cases arr with
      | nil => simp [pop_from_depth_buffer] at h1
      | cons a t =>
        simp only [pop_from_depth_buffer, Option.some.injEq, Prod.mk.injEq] at h1
        have hnd' : (a :: t).Nodup := List.Nodup.of_append_right hnd
        exact h1.2.2 ▸ h1.1 ▸ (List.nodup_cons.mp hnd').1
    intro hEq
    exact hkey (hEq ▸ hdepth_mem b₁ a₁ k m₂ b₂ a₂ h2)

/-- C9 witness: a depth pop with a stale buffered measurement (tag 7)
returns the fresh arrival (tag 4), which is indeed among the
post-capture arrivals. -/
theorem buffer_pop_spec_witness :
    pop_from_depth_buffer (some 7) [4] = some (4, some 4, []) ∧ (4 : ℕ) ∈ [4] :=
  ⟨rfl, buffer_pop_spec.1 (some 7) [4] 4 (some 4) [] rfl⟩

end Turtlebot
